import Mathlib

/-!
Verification of the assetlog plugin's configuration reconciliation and
persistence subsystem (pkg/plugin/app_settings.go, pkg/plugin/config.go,
the reconciling NewApp, and the tenant resolver).

Modelling conventions:
* Go byte slices holding JSON text are modelled as Lean String values
  (inputs are assumed to be UTF-8 text; nil and empty slices coincide,
  which matches every use site, all of which only test length or compare
  bytes).
* Go map[string]string is modelled as an association list
  (List (String × String)); the Go map invariant of distinct keys is the
  NodupKeys predicate, assumed where a proof needs it.  Iteration order
  over a Go map is arbitrary; every folded operation modelled here is
  insensitive to it at the level of the properties proved.
* Go time.Time is modelled as a Nat instant, 0 standing for the zero
  time (time.Time.IsZero); After is the strict order.  RFC3339Nano
  formatting of an instant is injective, so rows store the Nat directly.
* Go encoding/json decodes numbers into float64; numbers are idealized
  as exact decimals here.  Whitespace trimming is modelled with ASCII
  whitespace (space, tab, CR, LF), the whitespace JSON itself admits.
-/

/-- String maps: the model of Go map[string]string. -/
abbrev StrMap := List (String × String)

/-- Lookup of a key, None when absent (Go: v, ok := m[k]). -/
def lookupMap (m : StrMap) (k : String) : Option String :=
  (m.find? (fun p => p.1 == k)).map (fun p => p.2)

/-- Lookup with the Go zero-value default (Go: m[k] on a missing key yields ""). -/
def lookupMapD (m : StrMap) (k : String) : String :=
  (lookupMap m k).getD ""

/-- The Go map invariant: keys are pairwise distinct. -/
def NodupKeys (m : StrMap) : Prop :=
  (m.map Prod.fst).Nodup

instance (m : StrMap) : Decidable (NodupKeys m) :=
  List.nodupDecidable (m.map Prod.fst)

deriving instance DecidableEq for Except

/-- Replace the binding of a key, or append it (Go: m[k] = v on a map). -/
def setMap : StrMap → String → String → StrMap
  | [], k, v => [(k, v)]
  | (k1, v1) :: rest, k, v =>
    if k1 == k then (k, v) :: rest else (k1, v1) :: setMap rest k v

/-- copyStringMap from app_settings.go: a value copy; contents are unchanged
(the Go version returns nil for an empty source, which is indistinguishable
from an empty map at every use site). -/
def copyStringMap (m : StrMap) : StrMap := m

/-- Exact decimal numbers m × 10^e in canonical form (m carries no factor
of ten unless it is zero, and zero is 0 × 10^0): the idealization of the
float64 values encoding/json produces for JSON number literals.  Two
literals denote the same decimal exactly when their canonical forms are
equal. -/
structure Dec10 where
  mant : Int
  exp10 : Int
deriving Repr, DecidableEq, Inhabited

/-- Strip factors of ten from a mantissa into the exponent. -/
def stripTens : Nat → Nat → Int → Nat × Int
  | 0, m, e => (m, e)
  | fuel + 1, m, e => if m ≠ 0 ∧ m % 10 == 0 then stripTens fuel (m / 10) (e + 1) else (m, e)

/-- Canonical decimal from a sign, mantissa and exponent. -/
def mkDec10 (neg : Bool) (m : Nat) (e : Int) : Dec10 :=
  if m == 0 then { mant := 0, exp10 := 0 }
  else
    let p := stripTens m m e
    { mant := if neg then -(p.1 : Int) else (p.1 : Int), exp10 := p.2 }

mutual

/-- JSON values as Go encoding/json decodes into interface\x7b\x7d:
null, bool, float64 (idealized as exact decimals), string,
[]interface\x7b\x7d,
map[string]interface\x7b\x7d.  Objects are kept sorted by key with
distinct keys (last duplicate wins at parse time), the canonical form of
the unordered Go map, so structural equality below coincides with
reflect.DeepEqual.  Array elements and object fields are chained with
dedicated list types so every traversal is plain structural recursion. -/
inductive Json where
  | null : Json
  | bool (b : Bool) : Json
  | num (d : Dec10) : Json
  | str (s : String) : Json
  | arr (xs : JsonItems) : Json
  | obj (fields : JsonFields) : Json

/-- The elements of a JSON array. -/
inductive JsonItems where
  | nil : JsonItems
  | cons (hd : Json) (tl : JsonItems) : JsonItems

/-- The fields of a JSON object, kept sorted by key. -/
inductive JsonFields where
  | nil : JsonFields
  | cons (key : String) (val : Json) (tl : JsonFields) : JsonFields

end

/-- Array elements from an ordinary list. -/
def listToItems : List Json → JsonItems
  | [] => .nil
  | x :: rest => .cons x (listToItems rest)

/-- Array elements back to an ordinary list. -/
def itemsToList : JsonItems → List Json
  | .nil => []
  | .cons x rest => x :: itemsToList rest

mutual

/-- Structural equality of decoded JSON values (reflect.DeepEqual on the
decoded interface values; objects are canonical so pointwise equality of
the sorted field lists is map equality). -/
def Json.beq : Json → Json → Bool
  | .null, .null => true
  | .bool x, .bool y => x == y
  | .num x, .num y => x == y
  | .str x, .str y => x == y
  | .arr xs, .arr ys => JsonItems.beq xs ys
  | .obj xs, .obj ys => JsonFields.beq xs ys
  | _, _ => false

/-- Elementwise equality of JSON arrays. -/
def JsonItems.beq : JsonItems → JsonItems → Bool
  | .nil, .nil => true
  | .cons a as1, .cons b bs1 => Json.beq a b && JsonItems.beq as1 bs1
  | _, _ => false

/-- Elementwise equality of canonical JSON object field lists. -/
def JsonFields.beq : JsonFields → JsonFields → Bool
  | .nil, .nil => true
  | .cons ka va as1, .cons kb vb bs1 => ka == kb && Json.beq va vb && JsonFields.beq as1 bs1
  | _, _ => false

end

instance : BEq Json := ⟨Json.beq⟩

/-- JSON whitespace (also what the Go decoder skips between tokens). -/
def isJsonWs (c : Char) : Bool :=
  c == ' ' || c == '\t' || c == '\n' || c == '\r'

/-- Skip leading JSON whitespace. -/
def skipWs : List Char → List Char
  | [] => []
  | c :: rest => if isJsonWs c then skipWs rest else c :: rest

/-- strings.TrimSpace and bytes.TrimSpace as the sources use them, defined
structurally over the character list so that proofs can evaluate it (the
sources trim Unicode whitespace; the inputs of interest carry only the four
ASCII whitespace characters JSON admits). -/
def goTrim (s : String) : String :=
  String.mk (((s.data.dropWhile isJsonWs).reverse.dropWhile isJsonWs).reverse)

/-- Lexicographic character-list order (the order json.Marshal sorts map
keys in; bytewise UTF-8 order coincides with codepoint order). -/
def ltChars : List Char → List Char → Bool
  | [], [] => false
  | [], _ :: _ => true
  | _ :: _, [] => false
  | a :: as1, b :: bs1 =>
    if a.toNat < b.toNat then true
    else if b.toNat < a.toNat then false
    else ltChars as1 bs1

/-- Lexicographic string order over the character lists. -/
def strLtB (a b : String) : Bool :=
  ltChars a.data b.data

/-- Insert a field into a sorted field list, replacing a duplicate key
(the Go decoder keeps the last duplicate when filling a map). -/
def insertField : JsonFields → String → Json → JsonFields
  | .nil, k, v => .cons k v .nil
  | .cons k1 v1 rest, k, v =>
    if k == k1 then .cons k v rest
    else if strLtB k k1 then .cons k v (.cons k1 v1 rest)
    else .cons k1 v1 (insertField rest k v)

/-- Numeric value of a hexadecimal digit, 16 on a non-digit. -/
def hexVal (c : Char) : Nat :=
  if '0' ≤ c ∧ c ≤ '9' then c.toNat - '0'.toNat
  else if 'a' ≤ c ∧ c ≤ 'f' then c.toNat - 'a'.toNat + 10
  else if 'A' ≤ c ∧ c ≤ 'F' then c.toNat - 'A'.toNat + 10
  else 16

/-- Decode the four hex digits of a \uXXXX escape. -/
def hex4 : List Char → Option (Nat × List Char)
  | a :: b :: c :: d :: rest =>
    if hexVal a < 16 ∧ hexVal b < 16 ∧ hexVal c < 16 ∧ hexVal d < 16 then
      some (((hexVal a * 16 + hexVal b) * 16 + hexVal c) * 16 + hexVal d, rest)
    else none
  | _ => none

/-- Body of a JSON string literal after the opening quote.  Mirrors the Go
decoder: bare control characters are an error, the eight simple escapes and
\uXXXX are honoured, surrogate pairs are combined and lone surrogates decode
to U+FFFD. -/
def parseStringBody : Nat → List Char → List Char → Option (String × List Char)
  | 0, _, _ => none
  | _ + 1, [], _ => none
  | fuel + 1, c :: rest, acc =>
    if c == '"' then some (String.mk acc.reverse, rest)
    else if c == '\\' then
      match rest with
      | [] => none
      | e :: rest2 =>
        if e == '"' then parseStringBody fuel rest2 ('"' :: acc)
        else if e == '\\' then parseStringBody fuel rest2 ('\\' :: acc)
        else if e == '/' then parseStringBody fuel rest2 ('/' :: acc)
        else if e == 'b' then parseStringBody fuel rest2 ('\x08' :: acc)
        else if e == 'f' then parseStringBody fuel rest2 ('\x0c' :: acc)
        else if e == 'n' then parseStringBody fuel rest2 ('\n' :: acc)
        else if e == 'r' then parseStringBody fuel rest2 ('\r' :: acc)
        else if e == 't' then parseStringBody fuel rest2 ('\t' :: acc)
        else if e == 'u' then
          match hex4 rest2 with
          | none => none
          | some (n, rest3) =>
            if 0xD800 ≤ n ∧ n < 0xDC00 then
              match rest3 with
              | '\\' :: 'u' :: rest4 =>
                match hex4 rest4 with
                | some (n2, rest5) =>
                  if 0xDC00 ≤ n2 ∧ n2 < 0xE000 then
                    parseStringBody fuel rest5
                      (Char.ofNat (0x10000 + (n - 0xD800) * 0x400 + (n2 - 0xDC00)) :: acc)
                  else parseStringBody fuel rest3 ('\uFFFD' :: acc)
                | none => parseStringBody fuel rest3 ('\uFFFD' :: acc)
              | _ => parseStringBody fuel rest3 ('\uFFFD' :: acc)
            else if 0xDC00 ≤ n ∧ n < 0xE000 then
              parseStringBody fuel rest3 ('\uFFFD' :: acc)
            else
              parseStringBody fuel rest3 (Char.ofNat n :: acc)
        else none
    else if c.toNat < 0x20 then none
    else parseStringBody fuel rest (c :: acc)

/-- Natural number denoted by a digit string. -/
def digitsToNat (ds : List Char) : Nat :=
  ds.foldl (fun a c => a * 10 + (c.toNat - '0'.toNat)) 0

/-- Parse a JSON number literal per the RFC 8259 grammar the Go decoder
enforces (no leading zeros, mandatory digits around the point and after an
exponent marker).  The denoted value is returned as an exact canonical decimal. -/
def parseNumber (cs : List Char) : Option (Json × List Char) :=
  let (neg, cs1) :=
    match cs with
    | '-' :: rest => (true, rest)
    | _ => (false, cs)
  match cs1 with
  | [] => none
  | c :: _ =>
    if ¬ c.isDigit then none
    else
      let (intDs, cs2) := cs1.span Char.isDigit
      if intDs.length > 1 ∧ intDs.headD '0' == '0' then none
      else
        let (fracDs, cs3) :=
          match cs2 with
          | '.' :: rest =>
            let (ds, rest2) := rest.span Char.isDigit
            (ds, if ds.isEmpty then [] else rest2)
          | _ => ([], cs2)
        match cs2, fracDs with
        | '.' :: _, [] => none
        | _, _ =>
          let (expOk, expVal, cs4) :=
            match cs3 with
            | 'e' :: rest | 'E' :: rest =>
              let (esign, rest2) :=
                match rest with
                | '+' :: r => ((1 : Int), r)
                | '-' :: r => ((-1 : Int), r)
                | r => ((1 : Int), r)
              let (eds, rest3) := rest2.span Char.isDigit
              if eds.isEmpty then (false, (0 : Int), cs3)
              else (true, esign * (digitsToNat eds : Int), rest3)
            | _ => (true, (0 : Int), cs3)
          if ¬ expOk then none
          else
            let mant := digitsToNat (intDs ++ fracDs)
            some (.num (mkDec10 neg mant (expVal - (fracDs.length : Int))), cs4)

mutual

/-- Recursive-descent JSON value parser (the model of Go encoding/json
decoding into interface\x7b\x7d).  Fuel bounds the recursion depth; every
nested call crosses at least one consumed character, so fuel = input length
plus two never runs out. -/
def parseValue : Nat → List Char → Option (Json × List Char)
  | 0, _ => none
  | fuel + 1, cs =>
    match skipWs cs with
    | [] => none
    | c :: rest =>
      if c == 'n' then
        match rest with
        | 'u' :: 'l' :: 'l' :: rest2 => some (.null, rest2)
        | _ => none
      else if c == 't' then
        match rest with
        | 'r' :: 'u' :: 'e' :: rest2 => some (.bool true, rest2)
        | _ => none
      else if c == 'f' then
        match rest with
        | 'a' :: 'l' :: 's' :: 'e' :: rest2 => some (.bool false, rest2)
        | _ => none
      else if c == '"' then
        match parseStringBody (rest.length + 1) rest [] with
        | some (s, rest2) => some (.str s, rest2)
        | none => none
      else if c == '[' then
        match skipWs rest with
        | ']' :: rest2 => some (.arr .nil, rest2)
        | _ => parseArrItems fuel rest []
      else if c == '\x7b' then
        match skipWs rest with
        | '\x7d' :: rest2 => some (.obj .nil, rest2)
        | _ => parseObjItems fuel rest .nil
      else if c == '-' ∨ c.isDigit then parseNumber (c :: rest)
      else none

/-- Comma-separated array elements up to the closing bracket. -/
def parseArrItems : Nat → List Char → List Json → Option (Json × List Char)
  | 0, _, _ => none
  | fuel + 1, cs, acc =>
    match parseValue fuel cs with
    | none => none
    | some (v, rest) =>
      match skipWs rest with
      | ',' :: rest2 => parseArrItems fuel rest2 (v :: acc)
      | ']' :: rest2 => some (.arr (listToItems (v :: acc).reverse), rest2)
      | _ => none

/-- Comma-separated object members up to the closing brace, accumulated in
canonical sorted form with the last duplicate key winning. -/
def parseObjItems : Nat → List Char → JsonFields → Option (Json × List Char)
  | 0, _, _ => none
  | fuel + 1, cs, acc =>
    match skipWs cs with
    | '"' :: rest =>
      match parseStringBody (rest.length + 1) rest [] with
      | none => none
      | some (k, rest2) =>
        match skipWs rest2 with
        | ':' :: rest3 =>
          match parseValue fuel rest3 with
          | none => none
          | some (v, rest4) =>
            match skipWs rest4 with
            | ',' :: rest5 => parseObjItems fuel rest5 (insertField acc k v)
            | '\x7d' :: rest5 => some (.obj (insertField acc k v), rest5)
            | _ => none
        | _ => none
    | _ => none

end

/-- Parse a complete JSON document: one value with only whitespace around
it, as json.Unmarshal requires.  None is the model of a non-nil error. -/
def parseJsonCore (s : String) : Option Json :=
  let cs := s.toList
  match parseValue (cs.length + 2) cs with
  | some (v, rest) => if (skipWs rest).isEmpty then some v else none
  | none => none

/-- Unmarshalling is insensitive to surrounding whitespace, so the parse of
a document is the parse of its trimmed form; defining it that way makes the
stability under trimming definitional. -/
def parseJson (s : String) : Option Json :=
  parseJsonCore (goTrim s)

/-- Lowercase hexadecimal digit. -/
def hexDigitChar (n : Nat) : String :=
  String.singleton (if n < 10 then Char.ofNat ('0'.toNat + n) else Char.ofNat ('a'.toNat + n - 10))

/-- Escape one character the way Go json.Marshal renders it inside a string
literal (the default encoder also escapes the HTML characters and the two
line separators). -/
def escapeJsonChar (c : Char) : String :=
  if c == '"' then "\\\""
  else if c == '\\' then "\\\\"
  else if c == '\n' then "\\n"
  else if c == '\r' then "\\r"
  else if c == '\t' then "\\t"
  else if c == '<' then "\\u003c"
  else if c == '>' then "\\u003e"
  else if c == '&' then "\\u0026"
  else if c.toNat < 0x20 then "\\u00" ++ hexDigitChar (c.toNat / 16) ++ hexDigitChar (c.toNat % 16)
  else if c.toNat == 0x2028 then "\\u2028"
  else if c.toNat == 0x2029 then "\\u2029"
  else String.singleton c

/-- Escape a whole string for a JSON string literal. -/
def escapeJsonString (s : String) : String :=
  s.toList.foldl (fun acc c => acc ++ escapeJsonChar c) ""

/-- Render a number the way Go json.Marshal prints a float64: integers
without a point, other decimals in plain decimal notation.  (Go prints the
shortest float64 round-trip form and switches to exponent notation outside
1e-6..1e21; the exact decimals here print their exact decimal expansion,
which agrees on the short literals this system stores.) -/
def goNumString (d : Dec10) : String :=
  if 0 ≤ d.exp10 then toString (d.mant * (10 : Int) ^ d.exp10.toNat)
  else
    let k := (-d.exp10).toNat
    let a := d.mant.natAbs
    let signStr := if d.mant < 0 then "-" else ""
    let ip := a / 10 ^ k
    let fp := a % 10 ^ k
    let fpStr := toString fp
    signStr ++ toString ip ++ "." ++ String.mk (List.replicate (k - fpStr.length) '0') ++ fpStr

mutual

/-- Serialize a decoded JSON value the way json.Marshal renders it: no
insignificant whitespace, object keys in sorted order (canonical field
lists are already sorted). -/
def serializeJson : Json → String
  | .null => "null"
  | .bool b => if b then "true" else "false"
  | .num d => goNumString d
  | .str s => "\"" ++ escapeJsonString s ++ "\""
  | .arr xs => "[" ++ serializeItems xs ++ "]"
  | .obj fs => "\x7b" ++ serializeFields fs ++ "\x7d"

/-- Comma-joined array elements. -/
def serializeItems : JsonItems → String
  | .nil => ""
  | .cons x .nil => serializeJson x
  | .cons x (.cons y tl) => serializeJson x ++ "," ++ serializeItems (.cons y tl)

/-- Comma-joined object members. -/
def serializeFields : JsonFields → String
  | .nil => ""
  | .cons k v .nil => "\"" ++ escapeJsonString k ++ "\":" ++ serializeJson v
  | .cons k v (.cons k2 v2 tl) =>
    "\"" ++ escapeJsonString k ++ "\":" ++ serializeJson v ++ "," ++
      serializeFields (.cons k2 v2 tl)

end

/-- canonicalizeJSON from app_settings.go: blank input becomes empty bytes,
unparseable input is passed through trimmed, parseable input is re-marshalled
deterministically.  The Go error return is always nil on these values
(json.Marshal cannot fail on a decoded interface value), so the model is
total. -/
def canonicalizeJSON (data : String) : String :=
  let trimmed := goTrim data
  if trimmed.isEmpty then ""
  else
    match parseJsonCore trimmed with
    | none => trimmed
    | some v => serializeJson v

/-- encodeStringMap from app_settings.go: empty maps encode to the empty
string, otherwise json.Marshal of the map (sorted keys); Marshal cannot
fail on a map of strings, so the model is total. -/
def encodeStringMap (m : StrMap) : String :=
  if m.isEmpty then ""
  else serializeJson (.obj (m.foldl (fun fs p => insertField fs p.1 (.str p.2)) .nil))

/-- nullableStringFromBytes from app_settings.go: blank bytes persist as SQL
NULL. -/
def nullableStringFromBytes (data : String) : Option String :=
  if (goTrim data).isEmpty then none else some data

/-- jsonEqual from app_settings.go. -/
def jsonEqual (a b : String) : Bool :=
  if (goTrim a).isEmpty ∧ (goTrim b).isEmpty then true
  else
    match parseJson a with
    | none => goTrim a == goTrim b
    | some va =>
      match parseJson b with
      | none => false
      | some vb => Json.beq va vb

/-- mapsEqual from app_settings.go.  Note the loop reads b[k] with the Go
zero-value default for a missing key. -/
def mapsEqual (a b : StrMap) : Bool :=
  if a.length == 0 ∧ b.length == 0 then true
  else if a.length ≠ b.length then false
  else a.all (fun p => lookupMapD b p.1 == p.2)

/-- backend.AppInstanceSettings as this plugin consumes it. -/
structure AppInstanceSettings where
  JSONData : String
  DecryptedSecureJSONData : StrMap
  Updated : Nat
  APIVersion : String
deriving Repr, DecidableEq

/-- persistedAppSettings from app_settings.go: one durable row per org. -/
structure PersistedAppSettings where
  JSONData : String
  SecureJSONData : StrMap
  UpdatedAt : Nat
  ProvisionedJSONData : String
  ProvisionedSecureJSONData : StrMap
  ProvisionedUpdatedAt : Nat
deriving Repr, DecidableEq

/-- hasNonEmptySettings from app_settings.go. -/
def hasNonEmptySettings (s : AppInstanceSettings) : Bool :=
  if ¬ s.JSONData.isEmpty then true else ¬ s.DecryptedSecureJSONData.isEmpty

/-- isProvisionedFallback from app_settings.go. -/
def isProvisionedFallback (settings : AppInstanceSettings) (persisted : Option PersistedAppSettings) : Bool :=
  match persisted with
  | none => false
  | some p =>
    if p.ProvisionedJSONData.isEmpty ∧ p.ProvisionedSecureJSONData.isEmpty then false
    else if ¬ jsonEqual settings.JSONData p.ProvisionedJSONData then false
    else if ¬ mapsEqual settings.DecryptedSecureJSONData p.ProvisionedSecureJSONData then false
    else true

/-- shouldPersistUpdate from app_settings.go. -/
def shouldPersistUpdate (settings : AppInstanceSettings) (persisted : Option PersistedAppSettings) : Bool :=
  match persisted with
  | none => hasNonEmptySettings settings
  | some p =>
    if ¬ hasNonEmptySettings settings then false
    else if isProvisionedFallback settings (some p) then false
    else if settings.Updated == 0 then false
    else if p.UpdatedAt == 0 then true
    else if ¬ (settings.Updated > p.UpdatedAt) then false
    else if jsonEqual settings.JSONData p.JSONData ∧ mapsEqual settings.DecryptedSecureJSONData p.SecureJSONData then false
    else true

/-- One step of the secret retention loop in mergeAppInstanceSettings: a
persisted secret is written into the merged map when the merged map lacks
the key or holds only whitespace under it. -/
def insertPersistedSecret (acc : StrMap) (k v : String) : StrMap :=
  match lookupMap acc k with
  | none => setMap acc k v
  | some val => if (goTrim val).isEmpty then setMap acc k v else acc

/-- The secret retention loop of mergeAppInstanceSettings (the final else
branch): every persisted secret entry is offered to the merged map. -/
def mergeSecretFold (merged persisted : StrMap) : StrMap :=
  persisted.foldl (fun acc p => insertPersistedSecret acc p.1 p.2) merged

/-- mergeAppInstanceSettings from app_settings.go. -/
def mergeAppInstanceSettings (settings : AppInstanceSettings) (persisted : Option PersistedAppSettings) : AppInstanceSettings :=
  let merged : AppInstanceSettings :=
    { JSONData := settings.JSONData
      DecryptedSecureJSONData := copyStringMap settings.DecryptedSecureJSONData
      Updated := settings.Updated
      APIVersion := settings.APIVersion }
  match persisted with
  | none => merged
  | some p =>
    let merged :=
      if merged.JSONData.isEmpty ∧ ¬ p.JSONData.isEmpty then
        { merged with JSONData := p.JSONData }
      else merged
    if ¬ p.SecureJSONData.isEmpty then
      if merged.DecryptedSecureJSONData.isEmpty then
        { merged with DecryptedSecureJSONData := copyStringMap p.SecureJSONData }
      else if ¬ p.ProvisionedSecureJSONData.isEmpty ∧
          mapsEqual merged.DecryptedSecureJSONData p.ProvisionedSecureJSONData ∧
          ¬ mapsEqual p.SecureJSONData p.ProvisionedSecureJSONData then
        { merged with DecryptedSecureJSONData := copyStringMap p.SecureJSONData }
      else
        { merged with DecryptedSecureJSONData := mergeSecretFold merged.DecryptedSecureJSONData p.SecureJSONData }
    else merged

/-- persistedToAppInstanceSettings from app_settings.go. -/
def persistedToAppInstanceSettings (p : Option PersistedAppSettings) (apiVersion : String) : AppInstanceSettings :=
  match p with
  | none => { JSONData := "", DecryptedSecureJSONData := [], Updated := 0, APIVersion := apiVersion }
  | some p =>
    { JSONData := p.JSONData
      DecryptedSecureJSONData := copyStringMap p.SecureJSONData
      Updated := p.UpdatedAt
      APIVersion := apiVersion }

/-- The values savePersistedAppSettings (app_settings.go) computes before
binding them to the upsert parameters: the canonicalized live blob, the
candidate secret map, the resolved timestamp, and the provisioned triple
(kept from the existing row when any provisioned field is set, otherwise
initialized from the existing live record, otherwise from the candidate).
The now argument stands for time.Now().UTC() taken when the candidate
carries a zero timestamp. -/
structure SaveValues where
  canonicalJSON : String
  secure : StrMap
  updated : Nat
  provJSON : String
  provSecure : StrMap
  provUpdated : Nat
deriving Repr, DecidableEq

/-- The computation at the heart of savePersistedAppSettings. -/
def saveValues (now : Nat) (settings : AppInstanceSettings) (existing : Option PersistedAppSettings) : SaveValues :=
  let updated := if settings.Updated == 0 then now else settings.Updated
  let canonicalJSON := canonicalizeJSON settings.JSONData
  let prov : String × StrMap × Nat :=
    match existing with
    | some e => (e.ProvisionedJSONData, copyStringMap e.ProvisionedSecureJSONData, e.ProvisionedUpdatedAt)
    | none => ("", [], 0)
  let prov :=
    if prov.1.isEmpty ∧ prov.2.1.isEmpty then
      match existing with
      | some e => (e.JSONData, copyStringMap e.SecureJSONData, e.UpdatedAt)
      | none => (canonicalJSON, copyStringMap settings.DecryptedSecureJSONData, updated)
    else prov
  { canonicalJSON := canonicalJSON
    secure := settings.DecryptedSecureJSONData
    updated := updated
    provJSON := prov.1
    provSecure := prov.2.1
    provUpdated := prov.2.2 }

/-- Empty encodings persist as SQL NULL (the var secureJSON interface
pattern in savePersistedAppSettings). -/
def encodeStringMapOpt (m : StrMap) : Option String :=
  let s := encodeStringMap m
  if s == "" then none else some s

/-- Zero instants persist as SQL NULL; a set instant is stored as its
RFC3339Nano text, which round-trips, so the model keeps the instant. -/
def timeColumn (t : Nat) : Option Nat :=
  if t == 0 then none else some t

/-- The parameter tuple savePersistedAppSettings binds to its single atomic
upsert statement, one field per column of app_settings. -/
structure SaveRow where
  orgId : Int
  jsonData : String
  secureJSON : Option String
  updatedAt : Nat
  provisionedJSON : Option String
  provisionedSecureJSON : Option String
  provisionedUpdatedAt : Option Nat
deriving Repr, DecidableEq

/-- savePersistedAppSettings from app_settings.go, modelled as the row its
upsert writes.  The db-nil and Exec error paths abort the save without
writing and are outside the row model. -/
def savePersistedAppSettingsRow (orgId : Int) (now : Nat) (settings : AppInstanceSettings) (existing : Option PersistedAppSettings) : SaveRow :=
  let v := saveValues now settings existing
  { orgId := orgId
    jsonData := v.canonicalJSON
    secureJSON := encodeStringMapOpt v.secure
    updatedAt := v.updated
    provisionedJSON := nullableStringFromBytes v.provJSON
    provisionedSecureJSON := encodeStringMapOpt v.provSecure
    provisionedUpdatedAt := timeColumn v.provUpdated }

/-- The persisted record a later loadPersistedAppSettings reads back after
the upsert of saveValues (the spec's round-trip guarantee for timestamps
and the JSON round-trip for the secret map make this exact). -/
def recordAfterSave (now : Nat) (settings : AppInstanceSettings) (existing : Option PersistedAppSettings) : PersistedAppSettings :=
  let v := saveValues now settings existing
  { JSONData := v.canonicalJSON
    SecureJSONData := v.secure
    UpdatedAt := v.updated
    ProvisionedJSONData := v.provJSON
    ProvisionedSecureJSONData := v.provSecure
    ProvisionedUpdatedAt := v.provUpdated }

/-- Outcome of loadPersistedAppSettings as NewApp consumes it: a query or
decode failure (which NewApp only logs, leaving persisted nil), no row yet,
or the stored record. -/
inductive LoadOutcome where
  | loadFailed : LoadOutcome
  | absent : LoadOutcome
  | found (p : PersistedAppSettings) : LoadOutcome
deriving Repr, DecidableEq

/-- The record NewApp works with after the load step: failures degrade to
nil exactly like an absent row. -/
def persistedOfOutcome : LoadOutcome → Option PersistedAppSettings
  | .loadFailed => none
  | .absent => none
  | .found p => some p

/-- The reconciliation decision inside NewApp (the switch over persisted
and shouldPersistUpdate): the effective settings for this instantiation and
the candidate to write back, if any. -/
def reconcileEffective (settings : AppInstanceSettings) (orgId : Int) (out : LoadOutcome) : AppInstanceSettings × Option AppInstanceSettings :=
  if orgId == 0 then (mergeAppInstanceSettings settings none, none)
  else
    match persistedOfOutcome out with
    | none =>
      if hasNonEmptySettings settings then
        let c := mergeAppInstanceSettings settings none
        (c, some c)
      else (mergeAppInstanceSettings settings none, none)
    | some p =>
      if shouldPersistUpdate settings (some p) then
        let c := mergeAppInstanceSettings settings (some p)
        (c, some c)
      else (persistedToAppInstanceSettings (some p) settings.APIVersion, none)

/-- One host instantiation acting on the durable row of a tenant: load,
reconcile, and apply the write-back when one was decided.  A state is the
stored row or none. -/
def replayStep (settings : AppInstanceSettings) (orgId : Int) (now : Nat) (st : Option PersistedAppSettings) : Option PersistedAppSettings :=
  let out := match st with | none => LoadOutcome.absent | some p => LoadOutcome.found p
  match (reconcileEffective settings orgId out).2 with
  | none => st
  | some c => some (recordAfterSave now c st)

/-- defaultMaxUploadSizeMB from config.go. -/
def defaultMaxUploadSizeMB : Int := 25

/-- maxAllowedUploadSizeMB from config.go. -/
def maxAllowedUploadSizeMB : Int := 5120

/-- bytesInMegabyte from config.go. -/
def bytesInMegabyte : Int := 1024 * 1024

/-- StorageConfig from config.go.  The source names the second field
Prefix; it is renamed here for lexical reasons only. -/
structure StorageConfig where
  Bucket : String
  PrefixStr : String
  MaxUploadSizeMB : Int
  MaxUploadSizeBytes : Int
  ServiceAccountJSON : String
deriving Repr, DecidableEq

/-- Config from config.go. -/
structure Config where
  APIURL : String
  APIKey : String
  Storage : StorageConfig
deriving Repr, DecidableEq

/-- Field lookup in a canonical decoded object. -/
def lookupField : JsonFields → String → Option Json
  | .nil, _ => none
  | .cons k1 v1 rest, k => if k1 == k then some v1 else lookupField rest k

/-- Decoding a string-typed struct field: absent or null leaves the zero
value, a string decodes, anything else is an unmarshalling error. -/
def jsonFieldString (fs : JsonFields) (k : String) : Except String String :=
  match lookupField fs k with
  | none => .ok ""
  | some .null => .ok ""
  | some (.str s) => .ok s
  | some _ => .error "decode jsonData"

/-- Decoding an int64-typed struct field: absent or null leaves zero, an
integral number in int64 range decodes, anything else is an unmarshalling
error.  (Go additionally rejects exponent and decimal-point literal forms
of integral values; they denote the same rationals here.) -/
def jsonFieldInt64 (fs : JsonFields) (k : String) : Except String Int :=
  match lookupField fs k with
  | none => .ok 0
  | some .null => .ok 0
  | some (.num d) =>
    if 0 ≤ d.exp10 then
      let v : Int := d.mant * (10 : Int) ^ d.exp10.toNat
      if -(2 ^ 63) ≤ v ∧ v < 2 ^ 63 then .ok v else .error "decode jsonData"
    else .error "decode jsonData"
  | some _ => .error "decode jsonData"

/-- The anonymous raw struct json.Unmarshal fills in parseConfig; field
names follow the json tags (the third is renamed for lexical reasons
only).  Matching is by exact tag; Go's case-insensitive fallback match is
not modelled (no caller depends on it). -/
structure RawConfigFields where
  apiUrl : String
  bucketName : String
  objectPrefixStr : String
  maxUploadSizeMb : Int
deriving Repr, DecidableEq

/-- json.Unmarshal of a settings blob into the raw struct of parseConfig:
fails on unparseable input or on a top-level value that is not an object
or null; unknown keys are ignored. -/
def decodeRawConfig (s : String) : Except String RawConfigFields :=
  match parseJson s with
  | none => .error "decode jsonData"
  | some .null => .ok { apiUrl := "", bucketName := "", objectPrefixStr := "", maxUploadSizeMb := 0 }
  | some (.obj fs) => do
    let a ← jsonFieldString fs "apiUrl"
    let b ← jsonFieldString fs "bucketName"
    let o ← jsonFieldString fs "objectPrefix"
    let m ← jsonFieldInt64 fs "maxUploadSizeMb"
    .ok { apiUrl := a, bucketName := b, objectPrefixStr := o, maxUploadSizeMb := m }
  | some _ => .error "decode jsonData"

/-- The secure-data phase of parseConfig: the apiKey and gcsServiceAccount
entries overwrite their configuration fields when present. -/
def applySecureConfig (m : StrMap) (cfg : Config) : Config :=
  let cfg :=
    match lookupMap m "apiKey" with
    | some v => { cfg with APIKey := v }
    | none => cfg
  match lookupMap m "gcsServiceAccount" with
  | some v => { cfg with Storage := { cfg.Storage with ServiceAccountJSON := v } }
  | none => cfg

/-- parseConfig from config.go. -/
def parseConfig (settings : AppInstanceSettings) : Except String Config :=
  let base : Config :=
    { APIURL := ""
      APIKey := ""
      Storage :=
        { Bucket := ""
          PrefixStr := ""
          MaxUploadSizeMB := defaultMaxUploadSizeMB
          MaxUploadSizeBytes := defaultMaxUploadSizeMB * bytesInMegabyte
          ServiceAccountJSON := "" } }
  let step1 : Except String Config :=
    if settings.JSONData.isEmpty then .ok base
    else
      match decodeRawConfig settings.JSONData with
      | .error e => .error e
      | .ok raw =>
        let cfg :=
          { base with
            APIURL := goTrim raw.apiUrl
            Storage := { base.Storage with Bucket := goTrim raw.bucketName, PrefixStr := goTrim raw.objectPrefixStr } }
        if raw.maxUploadSizeMb > 0 then
          let sizeMB :=
            if raw.maxUploadSizeMb > maxAllowedUploadSizeMB then maxAllowedUploadSizeMB
            else raw.maxUploadSizeMb
          .ok { cfg with Storage := { cfg.Storage with MaxUploadSizeMB := sizeMB, MaxUploadSizeBytes := sizeMB * bytesInMegabyte } }
        else .ok cfg
  match step1 with
  | .error e => .error e
  | .ok cfg => .ok (applySecureConfig settings.DecryptedSecureJSONData cfg)

/-- NewApp from the reconciling app module, modelled on the settings path:
database initialization is taken as succeeded (its failure is an
environment fault independent of the payload), the load outcome is a
parameter, reconciliation picks the effective settings and the optional
write-back, and the only abort after that is a parseConfig failure — the
persist step and storage initialization only log on failure. -/
def newAppModel (settings : AppInstanceSettings) (orgId : Int) (out : LoadOutcome) : Except String Config :=
  match parseConfig (reconcileEffective settings orgId out).1 with
  | .error e => .error ("parse config: " ++ e)
  | .ok cfg => .ok cfg

/-- strconv.ParseInt with base 10 and bitSize 64: an optional sign, then
decimal digits, in int64 range; anything else errors (None). -/
def parseInt64 (s : String) : Option Int :=
  let p : Int × List Char :=
    match s.toList with
    | '+' :: rest => (1, rest)
    | '-' :: rest => (-1, rest)
    | cs => (1, cs)
  if p.2.isEmpty ∨ ¬ p.2.all Char.isDigit then none
  else
    let v : Int := p.1 * (digitsToNat p.2 : Int)
    if -(2 ^ 63) ≤ v ∧ v < 2 ^ 63 then some v else none

/-- Value of a base64url alphabet character. -/
def b64UrlVal (c : Char) : Option Nat :=
  if 'A' ≤ c ∧ c ≤ 'Z' then some (c.toNat - 'A'.toNat)
  else if 'a' ≤ c ∧ c ≤ 'z' then some (c.toNat - 'a'.toNat + 26)
  else if '0' ≤ c ∧ c ≤ '9' then some (c.toNat - '0'.toNat + 52)
  else if c == '-' then some 62
  else if c == '_' then some 63
  else none

/-- Values of a run of base64url characters; any foreign character
(including padding) is an error. -/
def b64DecodeVals : List Char → Option (List Nat)
  | [] => some []
  | c :: rest =>
    match b64UrlVal c, b64DecodeVals rest with
    | some v, some vs => some (v :: vs)
    | _, _ => none

/-- Regroup 6-bit values into bytes; a trailing group of one value is a
corrupt-input error, and leftover bits are ignored as in Go's default
(non-strict) decoder. -/
def b64Group : List Nat → Option (List Nat)
  | [] => some []
  | [_] => none
  | [a, b] => some [a * 4 + b / 16]
  | [a, b, c] => some [a * 4 + b / 16, (b % 16) * 16 + c / 4]
  | a :: b :: c :: d :: rest =>
    match b64Group rest with
    | some bytes => some ((a * 4 + b / 16) :: ((b % 16) * 16 + c / 4) :: ((c % 4) * 64 + d) :: bytes)
    | none => none

/-- base64.RawURLEncoding.DecodeString: unpadded base64url. -/
def b64RawUrlDecode (s : String) : Option (List Nat) :=
  (b64DecodeVals s.toList).bind b64Group

/-- base64.URLEncoding.DecodeString: padded base64url; the length must be a
multiple of four with at most two trailing padding characters in the right
position. -/
def b64PaddedDecode (s : String) : Option (List Nat) :=
  let cs := s.toList
  if cs.length % 4 ≠ 0 then none
  else
    let body := cs.takeWhile (fun c => c ≠ '=')
    let pad := cs.drop body.length
    if ¬ pad.all (fun c => c == '=') then none
    else if pad.length > 2 then none
    else if pad.length == 1 ∧ body.length % 4 ≠ 3 then none
    else if pad.length == 2 ∧ body.length % 4 ≠ 2 then none
    else (b64DecodeVals body).bind b64Group

/-- padBase64 from the tenant resolver module. -/
def padBase64 (s : String) : String :=
  match s.length % 4 with
  | 2 => s ++ "=="
  | 3 => s ++ "="
  | 1 => s ++ "==="
  | _ => s

/-- Decoded payload bytes viewed as text for the JSON claim decoding.
Byte-exact for ASCII payloads (multi-byte UTF-8 payloads would need a
UTF-8 decoding step that no claim depends on). -/
def bytesToString (bs : List Nat) : String :=
  String.mk (bs.map Char.ofNat)

/-- ParseInt applied to the digits of an org claim, as an Except. -/
def parseOrgNum (s : String) : Except String Int :=
  match parseInt64 s with
  | some v => .ok v
  | none => .error "parse org id"

/-- The aud-claim arm of orgIDFromGrafanaJWT: a string claim with the org:
marker resolves (to the ParseInt result, error included); an array resolves
through its first string element with the marker; anything else falls
through to the namespace claim. -/
def audOrgResult (v : Json) : Option (Except String Int) :=
  match v with
  | .str t => if "org:".isPrefixOf t then some (parseOrgNum (t.drop 4)) else none
  | .arr items =>
    (itemsToList items).findSome? (fun it =>
      match it with
      | .str s2 => if "org:".isPrefixOf s2 then some (parseOrgNum (s2.drop 4)) else none
      | _ => none)
  | _ => none

/-- Claim extraction of orgIDFromGrafanaJWT over the decoded claims map. -/
def orgFromClaims (claims : JsonFields) : Except String Int :=
  match (lookupField claims "aud").bind audOrgResult with
  | some r => r
  | none =>
    match lookupField claims "namespace" with
    | some (.str ns) =>
      if "org-".isPrefixOf ns then parseOrgNum (ns.drop 4)
      else .error "org not found in Grafana token claims"
    | _ => .error "org not found in Grafana token claims"

/-- orgIDFromGrafanaJWT from the tenant resolver module. -/
def orgIDFromGrafanaJWT (jwt : String) : Except String Int :=
  let parts := jwt.splitOn "."
  if parts.length ≠ 3 then .error "invalid X-Grafana-Id format"
  else
    let p1 := (parts.get? 1).getD ""
    let payload : Option (List Nat) :=
      match b64RawUrlDecode p1 with
      | some bs => some bs
      | none => b64PaddedDecode (padBase64 p1)
    match payload with
    | none => .error "failed to decode JWT payload"
    | some bs =>
      match parseJson (bytesToString bs) with
      | some (.obj claims) => orgFromClaims claims
      | some .null => .error "org not found in Grafana token claims"
      | _ => .error "failed to unmarshal JWT claims"

/-- The trusted plugin context a request may carry (backend.PluginContext
restricted to the field the resolver reads). -/
structure PluginContextM where
  OrgID : Int
deriving Repr, DecidableEq

/-- An incoming resource request as the tenant resolver sees it: the raw
orgId query parameter (empty when absent, as url.Values.Get reports it),
the optional trusted plugin context, and the raw X-Grafana-Id header
(empty when absent, as Header.Get reports it). -/
structure RequestM where
  queryOrgId : String
  pluginCtx : Option PluginContextM
  xGrafanaId : String
deriving Repr, DecidableEq

/-- The error taxonomy of the resolver: validationError values and
httpError values with their status. -/
inductive ResolveErr where
  | validation (msg : String) : ResolveErr
  | httpErr (status : Nat) (msg : String) : ResolveErr
deriving Repr, DecidableEq

/-- getOrgFromRequest from the tenant resolver module. -/
def getOrgFromRequest (r : RequestM) : Except String Int :=
  if r.xGrafanaId == "" then .error "missing X-Grafana-Id header"
  else orgIDFromGrafanaJWT r.xGrafanaId

/-- resolveOrgIDFromRequest from the tenant resolver module. -/
def resolveOrgIDFromRequest (r : RequestM) : Except ResolveErr Int :=
  let v := goTrim r.queryOrgId
  let requested : Except ResolveErr (Option Int) :=
    if v == "" then .ok none
    else
      match parseInt64 v with
      | some q => .ok (some q)
      | none => .error (.validation "invalid orgId query parameter")
  match requested with
  | .error e => .error e
  | .ok requestedOrg =>
    match r.pluginCtx with
    | some pc =>
      match requestedOrg with
      | some q =>
        if q ≠ pc.OrgID then .error (.httpErr 403 "forbidden: organization mismatch")
        else .ok pc.OrgID
      | none => .ok pc.OrgID
    | none =>
      match getOrgFromRequest r with
      | .error _ => .error (.httpErr 403 "forbidden: could not determine caller organization")
      | .ok orgID =>
        match requestedOrg with
        | some q =>
          if q ≠ orgID then .error (.httpErr 403 "forbidden: organization mismatch")
          else .ok orgID
        | none => .ok orgID

/-- The org id the trusted chain yields for a request: the plugin context
when injected, else the bearer-token claim when it decodes. -/
def trustedSourceOrg (r : RequestM) : Option Int :=
  match r.pluginCtx with
  | some pc => some pc.OrgID
  | none =>
    match getOrgFromRequest r with
    | .ok id1 => some id1
    | .error _ => none

/-- Lookup after a keyed write: the written key reads back the value, other
keys are untouched. -/
theorem lookupMap_setMap (m : StrMap) (j v : String) (k : String) :
    lookupMap (setMap m j v) k = if k = j then some v else lookupMap m k := by
  induction m with
  | nil =>
    simp only [setMap, lookupMap, List.find?]
    by_cases h : k = j
    · simp [h]
    · have : (j == k) = false := by
        simp only [beq_eq_false_iff_ne]
        exact fun hjk => h hjk.symm
      simp [h, this]
  | cons p rest ih =>
    obtain ⟨k1, v1⟩ := p
    simp only [setMap]
    by_cases h1 : k1 = j
    · subst h1
      simp only [beq_self_eq_true, if_true]
      by_cases h : k = k1
      · subst h
        simp [lookupMap, List.find?]
      · have hne : (k1 == k) = false := by
          simp only [beq_eq_false_iff_ne]
          exact fun hjk => h hjk.symm
        simp [lookupMap, List.find?, hne, h]
    · have hne : (k1 == j) = false := by simpa using h1
      simp only [hne, if_false]
      by_cases h : k = k1
      · subst h
        simp [lookupMap, List.find?, h1]
      · have hne2 : (k1 == k) = false := by
          simp only [beq_eq_false_iff_ne]
          exact fun hjk => h hjk.symm
        simp only [lookupMap, List.find?, hne2] at ih ⊢
        exact ih

/-- The retention step leaves other keys alone. -/
theorem lookupMap_insertPersistedSecret_ne (acc : StrMap) (j w k : String) (h : j ≠ k) :
    lookupMap (insertPersistedSecret acc j w) k = lookupMap acc k := by
  unfold insertPersistedSecret
  have hne : ¬ k = j := fun hh => h hh.symm
  have hs : lookupMap (setMap acc j w) k = lookupMap acc k := by
    rw [lookupMap_setMap]
    simp [hne]
  cases hacc : lookupMap acc j with
  | none => simpa using hs
  | some val =>
    by_cases hb : (goTrim val).isEmpty
    · simpa [hb] using hs
    · simp [hb]

/-- The retention step writes the persisted value when the key is absent or
holds only whitespace. -/
theorem lookupMap_insertPersistedSecret_self (acc : StrMap) (k v : String)
    (h : lookupMap acc k = none ∨ ∃ w, lookupMap acc k = some w ∧ (goTrim w).isEmpty = true) :
    lookupMap (insertPersistedSecret acc k v) k = some v := by
  unfold insertPersistedSecret
  rcases h with h | ⟨w, hw, hb⟩
  · rw [h, lookupMap_setMap]
    simp
  · rw [hw]
    simp only [hb, if_true]
    rw [lookupMap_setMap]
    simp

/-- Folding persisted secrets whose keys all differ from k leaves the
binding at k alone. -/
theorem lookupMap_mergeSecretFold_not_mem (ps : StrMap) (m : StrMap) (k : String)
    (h : ∀ p ∈ ps, p.1 ≠ k) :
    lookupMap (mergeSecretFold m ps) k = lookupMap m k := by
  induction ps generalizing m with
  | nil => rfl
  | cons p rest ih =>
    have hp : p.1 ≠ k := h p (List.mem_cons_self p rest)
    have hrest : ∀ q ∈ rest, q.1 ≠ k := fun q hq => h q (List.mem_cons_of_mem p hq)
    show lookupMap (mergeSecretFold (insertPersistedSecret m p.1 p.2) rest) k = lookupMap m k
    rw [ih (insertPersistedSecret m p.1 p.2) hrest]
    exact lookupMap_insertPersistedSecret_ne m p.1 p.2 k hp


/-- Folding persisted secrets delivers the persisted value at any key the
current map lacks or holds blank, provided the persisted keys are distinct
(the Go map invariant). -/
theorem lookupMap_mergeSecretFold_mem : ∀ (ps m : StrMap) (k v : String),
    NodupKeys ps → lookupMap ps k = some v →
    (lookupMap m k = none ∨ ∃ w, lookupMap m k = some w ∧ (goTrim w).isEmpty = true) →
    lookupMap (mergeSecretFold m ps) k = some v
  | [], m, k, v, _, hv, _ => by simp [lookupMap, List.find?] at hv
  | p :: rest, m, k, v, hnd, hv, hm => by
    have hnd0 : ¬ p.1 ∈ rest.map Prod.fst ∧ NodupKeys rest := by
      have h := hnd
      simp only [NodupKeys, List.map_cons, List.nodup_cons] at h
      exact h
    by_cases hp : p.1 = k
    · have hv1 : p.2 = v := by
        have hbeq : (p.1 == k) = true := by simpa using hp
        simp only [lookupMap, List.find?, hbeq, Option.map_some] at hv
        exact Option.some.inj hv
      have hnotin : ∀ q ∈ rest, q.1 ≠ k := by
        intro q hq hqk
        apply hnd0.1
        rw [hp, ← hqk]
        exact List.mem_map_of_mem Prod.fst hq
      show lookupMap (mergeSecretFold (insertPersistedSecret m p.1 p.2) rest) k = some v
      rw [lookupMap_mergeSecretFold_not_mem rest _ k hnotin]
      rw [hp, hv1]
      exact lookupMap_insertPersistedSecret_self m k v hm
    · have hbeq : (p.1 == k) = false := by simpa using hp
      have hv2 : lookupMap rest k = some v := by
        simpa only [lookupMap, List.find?, hbeq] using hv
      have hm2 : lookupMap (insertPersistedSecret m p.1 p.2) k = none ∨
          ∃ w, lookupMap (insertPersistedSecret m p.1 p.2) k = some w ∧ (goTrim w).isEmpty = true := by
        rw [lookupMap_insertPersistedSecret_ne m p.1 p.2 k hp]
        exact hm
      exact lookupMap_mergeSecretFold_mem rest (insertPersistedSecret m p.1 p.2) k v hnd0.2 hv2 hm2

/-- The secure component of the merge, written as the four-way decision the
source makes once the JSON component has been settled (the JSON adjustment
never touches the secret map). -/
theorem mergeAppInstanceSettings_secure (incoming : AppInstanceSettings) (p : PersistedAppSettings) :
    (mergeAppInstanceSettings incoming (some p)).DecryptedSecureJSONData =
      if p.SecureJSONData = [] then incoming.DecryptedSecureJSONData
      else if incoming.DecryptedSecureJSONData = [] then p.SecureJSONData
      else if (¬ p.ProvisionedSecureJSONData = [] ∧
          mapsEqual incoming.DecryptedSecureJSONData p.ProvisionedSecureJSONData = true ∧
          mapsEqual p.SecureJSONData p.ProvisionedSecureJSONData = false) then p.SecureJSONData
      else mergeSecretFold incoming.DecryptedSecureJSONData p.SecureJSONData := by
  by_cases h2 : p.SecureJSONData = [] <;>
  by_cases h3 : incoming.DecryptedSecureJSONData = [] <;>
  by_cases h4 : (¬ p.ProvisionedSecureJSONData = [] ∧
      mapsEqual incoming.DecryptedSecureJSONData p.ProvisionedSecureJSONData = true ∧
      mapsEqual p.SecureJSONData p.ProvisionedSecureJSONData = false) <;>
  simp_all [mergeAppInstanceSettings, copyStringMap, List.isEmpty_iff,
    apply_ite AppInstanceSettings.DecryptedSecureJSONData]

/-- The merge retains a persisted secret at any key the incoming payload
omits or carries empty, in every branch of the secure decision. -/
theorem merge_retains_persisted_secret (incoming : AppInstanceSettings) (p : PersistedAppSettings) (k v : String)
    (hnd : NodupKeys p.SecureJSONData)
    (hk : lookupMap p.SecureJSONData k = some v)
    (homit : lookupMap incoming.DecryptedSecureJSONData k = none ∨
      lookupMap incoming.DecryptedSecureJSONData k = some "") :
    lookupMap (mergeAppInstanceSettings incoming (some p)).DecryptedSecureJSONData k = some v := by
  have hne : ¬ p.SecureJSONData = [] := by
    intro hsec
    rw [hsec] at hk
    simp [lookupMap, List.find?] at hk
  have homit2 : lookupMap incoming.DecryptedSecureJSONData k = none ∨
      ∃ w, lookupMap incoming.DecryptedSecureJSONData k = some w ∧ (goTrim w).isEmpty = true := by
    rcases homit with h | h
    · exact Or.inl h
    · exact Or.inr ⟨"", h, by decide⟩
  rw [mergeAppInstanceSettings_secure, if_neg hne]
  by_cases h3 : incoming.DecryptedSecureJSONData = []
  · rw [if_pos h3]
    exact hk
  · rw [if_neg h3]
    by_cases h4 : (¬ p.ProvisionedSecureJSONData = [] ∧
        mapsEqual incoming.DecryptedSecureJSONData p.ProvisionedSecureJSONData = true ∧
        mapsEqual p.SecureJSONData p.ProvisionedSecureJSONData = false)
    · rw [if_pos h4]
      exact hk
    · rw [if_neg h4]
      exact lookupMap_mergeSecretFold_mem p.SecureJSONData _ k v hnd hk homit2

/-- A blank document never parses (json.Unmarshal errors on empty input). -/
theorem parseJson_of_blank (s : String) (h : (goTrim s).isEmpty = true) :
    parseJson s = none := by
  unfold parseJson
  rw [(String.isEmpty_iff (goTrim s)).mp h]
  rfl

/-- Documents with the same trimmed bytes parse identically (whitespace
around a document is insignificant to json.Unmarshal). -/
theorem parseJson_congr (a b : String) (h : goTrim a = goTrim b) :
    parseJson a = parseJson b := by
  unfold parseJson
  rw [h]

/-- C9: jsonEqual treats two blank inputs as equal, coincides with
structural JSON equality when both sides parse, coincides with trimmed byte
equality when either side fails to parse, and evaluates as the claim lists
on the four sample inputs. -/
theorem jsonEqual_contract :
    (∀ a b : String, (goTrim a).isEmpty = true → (goTrim b).isEmpty = true → jsonEqual a b = true)
    ∧ (∀ a b : String, ∀ va vb : Json, parseJson a = some va → parseJson b = some vb →
        jsonEqual a b = Json.beq va vb)
    ∧ (∀ a b : String, parseJson a = none ∨ parseJson b = none →
        jsonEqual a b = (goTrim a == goTrim b))
    ∧ jsonEqual "\x7b\"a\":1,\"b\":2\x7d" "\x7b\"b\":2,\"a\":1\x7d" = true
    ∧ jsonEqual "" "  " = true
    ∧ jsonEqual "\x7bbad json" "\x7bbad json" = true
    ∧ jsonEqual "\x7bbad json" "other" = false := by
  refine ⟨?_, ?_, ?_, by decide, by decide, by decide, by decide⟩
  · intro a b ha hb
    unfold jsonEqual
    simp [ha, hb]
  · intro a b va vb hva hvb
    unfold jsonEqual
    have hna : ¬ ((goTrim a).isEmpty = true ∧ (goTrim b).isEmpty = true) := by
      rintro ⟨h1, -⟩
      rw [parseJson_of_blank a h1] at hva
      exact Option.noConfusion hva
    rw [if_neg hna, hva, hvb]
  · intro a b h
    by_cases hblank : ((goTrim a).isEmpty = true ∧ (goTrim b).isEmpty = true)
    · unfold jsonEqual
      rw [if_pos hblank]
      rw [(String.isEmpty_iff (goTrim a)).mp hblank.1, (String.isEmpty_iff (goTrim b)).mp hblank.2]
      rfl
    · unfold jsonEqual
      rw [if_neg hblank]
      cases hpa : parseJson a with
      | none => rfl
      | some va =>
        have hpb : parseJson b = none := by
          rcases h with h | h
          · rw [hpa] at h
            exact Option.noConfusion h
          · exact h
        rw [hpb]
        have hne : ¬ (goTrim a = goTrim b) := by
          intro he
          have hc := parseJson_congr a b he
          rw [hpa, hpb] at hc
          exact Option.noConfusion hc
        simp [hne]

/-- C9 witness: the contract applied at a concrete blank pair. -/
theorem jsonEqual_contract_witness : jsonEqual "" "  " = true :=
  jsonEqual_contract.1 "" "  " (by decide) (by decide)

/-- The key sets and values a spec-level map equality demands: identical
key sets and identical values (the wording of the claim, stated over the
lookup function). -/
def mapsEqualSpec (a b : StrMap) : Prop :=
  (∀ k : String, (lookupMap a k).isSome = (lookupMap b k).isSome) ∧
  (∀ (k v : String), lookupMap a k = some v → lookupMap b k = some v)

/-- C10 counterexample: two singleton maps with different keys but
empty-string values satisfy mapsEqual although their key sets differ, so
mapsEqual is not the claimed key-set-and-value equality. -/
theorem mapsEqual_not_keyset_equality :
    mapsEqual [("x", "")] [("y", "")] = true ∧ ¬ mapsEqualSpec [("x", "")] [("y", "")] := by
  refine ⟨by decide, ?_⟩
  intro hspec
  exact absurd (hspec.1 "x") (by decide)

/-- A key is found exactly when it is one of the map's keys. -/
theorem lookupMap_isSome_iff (m : StrMap) (k : String) :
    (lookupMap m k).isSome = true ↔ k ∈ m.map Prod.fst := by
  induction m with
  | nil => simp [lookupMap, List.find?]
  | cons p rest ih =>
    by_cases h : p.1 = k
    · have hbeq : (p.1 == k) = true := by simpa using h
      simp [lookupMap, List.find?, hbeq, h]
    · have hbeq : (p.1 == k) = false := by simpa using h
      have hne : ¬ k = p.1 := fun hh => h hh.symm
      simp only [lookupMap, List.find?, hbeq] at ih ⊢
      simp [ih, hne]

/-- With distinct keys, membership determines the lookup result. -/
theorem lookupMap_of_mem (m : StrMap) (hnd : NodupKeys m) (k v : String)
    (hmem : (k, v) ∈ m) : lookupMap m k = some v := by
  induction m with
  | nil => cases hmem
  | cons p rest ih =>
    have hnd0 : ¬ p.1 ∈ rest.map Prod.fst ∧ NodupKeys rest := by
      have h := hnd
      simp only [NodupKeys, List.map_cons, List.nodup_cons] at h
      exact h
    rcases List.mem_cons.mp hmem with he | hmem2
    · rw [← he]
      simp [lookupMap, List.find?]
    · have hne : p.1 ≠ k := by
        intro hh
        apply hnd0.1
        rw [hh]
        exact List.mem_map_of_mem Prod.fst hmem2
      have hbeq : (p.1 == k) = false := by simpa using hne
      simp only [lookupMap, List.find?, hbeq]
      exact ih hnd0.2 hmem2

/-- C10 amended: over maps with distinct keys (the Go map invariant),
mapsEqual is equivalent to equal key counts together with agreement of b on
every entry of a when a missing key reads as the empty string; identical
key sets with identical values still imply mapsEqual, but maps of equal
size that differ only in which keys hold empty-string values also compare
equal, so the claimed if-and-only-if with key-set equality fails. -/
theorem mapsEqual_amended (a b : StrMap) (hna : NodupKeys a) (hnb : NodupKeys b) :
    (mapsEqual a b = true ↔ (a.length = b.length ∧ ∀ p ∈ a, lookupMapD b p.1 = p.2))
    ∧ (mapsEqualSpec a b → mapsEqual a b = true) := by
  have hiff : mapsEqual a b = true ↔ (a.length = b.length ∧ ∀ p ∈ a, lookupMapD b p.1 = p.2) := by
    unfold mapsEqual
    by_cases h0 : ((a.length == 0) = true ∧ (b.length == 0) = true)
    · rw [if_pos h0]
      have ha : a = [] := List.length_eq_zero.mp (by simpa using h0.1)
      have hb : b = [] := List.length_eq_zero.mp (by simpa using h0.2)
      subst ha
      subst hb
      simp
    · rw [if_neg h0]
      by_cases h1 : a.length ≠ b.length
      · rw [if_pos h1]
        simp [h1]
      · rw [if_neg h1]
        push_neg at h1
        simp [List.all_eq_true, h1]
  refine ⟨hiff, ?_⟩
  intro hspec
  have hkeys : ∀ k, k ∈ a.map Prod.fst ↔ k ∈ b.map Prod.fst := by
    intro k
    rw [← lookupMap_isSome_iff a k, ← lookupMap_isSome_iff b k, hspec.1 k]
  have hperm : (a.map Prod.fst).Perm (b.map Prod.fst) :=
    (List.perm_ext_iff_of_nodup hna hnb).mpr hkeys
  have hlen : a.length = b.length := by
    have h := hperm.length_eq
    simpa using h
  refine hiff.mpr ⟨hlen, ?_⟩
  intro p hp
  have hla : lookupMap a p.1 = some p.2 := lookupMap_of_mem a hna p.1 p.2 hp
  have hlb : lookupMap b p.1 = some p.2 := hspec.2 p.1 p.2 hla
  unfold lookupMapD
  rw [hlb]
  rfl

/-- C10 witness: the amended equivalence applied at concrete equal maps. -/
theorem mapsEqual_amended_witness : mapsEqual [("k", "v")] [("k", "v")] = true :=
  (mapsEqual_amended [("k", "v")] [("k", "v")] (by decide) (by decide)).1.mpr
    ⟨rfl, by decide⟩

/-- C1: secret stickiness of the merge.  For a persisted record holding a
non-empty secret under k, and an incoming payload that omits k (or carries
it empty) while being strictly newer and differing in content, the merged
settings map k to the persisted value. -/
theorem merge_secret_stickiness (incoming : AppInstanceSettings) (p : PersistedAppSettings)
    (k v : String)
    (hnd : NodupKeys p.SecureJSONData)
    (hk : lookupMap p.SecureJSONData k = some v) (hv : v ≠ "")
    (homit : lookupMap incoming.DecryptedSecureJSONData k = none ∨
      lookupMap incoming.DecryptedSecureJSONData k = some "")
    (hnewer : p.UpdatedAt < incoming.Updated)
    (hdiff : ¬ (jsonEqual incoming.JSONData p.JSONData = true ∧
      mapsEqual incoming.DecryptedSecureJSONData p.SecureJSONData = true)) :
    lookupMap (mergeAppInstanceSettings incoming (some p)).DecryptedSecureJSONData k = some v :=
  merge_retains_persisted_secret incoming p k v hnd hk homit

/-- C1 witness: the merge retains the persisted secret on a concrete newer
edit of another field. -/
theorem merge_secret_stickiness_witness :
    lookupMap (mergeAppInstanceSettings
        { JSONData := "\x7b\"bucketName\":\"b2\"\x7d", DecryptedSecureJSONData := [],
          Updated := 10, APIVersion := "" }
        (some { JSONData := "\x7b\"bucketName\":\"b\"\x7d", SecureJSONData := [("k", "v")],
                UpdatedAt := 5, ProvisionedJSONData := "", ProvisionedSecureJSONData := [],
                ProvisionedUpdatedAt := 0 })).DecryptedSecureJSONData "k" = some "v" :=
  merge_secret_stickiness
    { JSONData := "\x7b\"bucketName\":\"b2\"\x7d", DecryptedSecureJSONData := [],
      Updated := 10, APIVersion := "" }
    { JSONData := "\x7b\"bucketName\":\"b\"\x7d", SecureJSONData := [("k", "v")],
      UpdatedAt := 5, ProvisionedJSONData := "", ProvisionedSecureJSONData := [],
      ProvisionedUpdatedAt := 0 }
    "k" "v" (by decide) (by decide) (by decide) (Or.inl (by decide)) (by decide) (by decide)

/-- C3: monotonic timestamp acceptance.  With an existing persisted record
and an incoming timestamp at most the persisted one, shouldPersistUpdate is
false and a reconciliation step leaves the stored row untouched. -/
theorem monotonic_timestamp_reject (incoming : AppInstanceSettings) (p : PersistedAppSettings)
    (orgId : Int) (now : Nat) (hle : incoming.Updated ≤ p.UpdatedAt) :
    shouldPersistUpdate incoming (some p) = false ∧
    replayStep incoming orgId now (some p) = some p := by
  have hs : shouldPersistUpdate incoming (some p) = false := by
    unfold shouldPersistUpdate
    by_cases h1 : hasNonEmptySettings incoming = true
    · by_cases h2 : isProvisionedFallback incoming (some p) = true
      · simp [h1, h2]
      · by_cases h3 : (incoming.Updated == 0) = true
        · simp [h1, h2, h3]
        · have h3n : incoming.Updated ≠ 0 := by simpa using h3
          have h4 : (p.UpdatedAt == 0) = false := by
            simp only [beq_eq_false_iff_ne]
            omega
          have h5 : ¬ (incoming.Updated > p.UpdatedAt) := by omega
          simp [h1, h2, h3, h4, h5]
    · simp [h1]
  refine ⟨hs, ?_⟩
  unfold replayStep reconcileEffective persistedOfOutcome
  by_cases ho : (orgId == 0) = true <;> simp [ho, hs]

/-- C3 witness: a concrete non-newer incoming payload is rejected and the
row survives a step unchanged. -/
theorem monotonic_timestamp_reject_witness :
    shouldPersistUpdate
        { JSONData := "\x7b\"a\":3\x7d", DecryptedSecureJSONData := [], Updated := 5, APIVersion := "" }
        (some { JSONData := "\x7b\"a\":1\x7d", SecureJSONData := [], UpdatedAt := 5,
                ProvisionedJSONData := "", ProvisionedSecureJSONData := [],
                ProvisionedUpdatedAt := 0 }) = false :=
  (monotonic_timestamp_reject
    { JSONData := "\x7b\"a\":3\x7d", DecryptedSecureJSONData := [], Updated := 5, APIVersion := "" }
    { JSONData := "\x7b\"a\":1\x7d", SecureJSONData := [], UpdatedAt := 5,
      ProvisionedJSONData := "", ProvisionedSecureJSONData := [], ProvisionedUpdatedAt := 0 }
    7 9 (by decide)).1

/-- C2: provisioned-baseline replay is a no-op.  With a stored record whose
provisioned baseline is non-empty and an incoming payload whose JSON is
canonically equal to the baseline blob and whose secrets equal the baseline
secrets, reconciliation yields the live persisted record as effective
settings with no write-back, and any number of repeated steps leaves the
stored row (updated_at included) unchanged. -/
theorem provisioned_replay_noop (incoming : AppInstanceSettings) (p : PersistedAppSettings)
    (orgId : Int) (now : Nat)
    (horg : (orgId == 0) = false)
    (hbase : ¬ (p.ProvisionedJSONData.isEmpty = true ∧ p.ProvisionedSecureJSONData.isEmpty = true))
    (hjson : jsonEqual incoming.JSONData p.ProvisionedJSONData = true)
    (hsec : mapsEqual incoming.DecryptedSecureJSONData p.ProvisionedSecureJSONData = true) :
    reconcileEffective incoming orgId (.found p) =
      (persistedToAppInstanceSettings (some p) incoming.APIVersion, none)
    ∧ ∀ n : Nat, (replayStep incoming orgId now)^[n] (some p) = some p := by
  have hfb : isProvisionedFallback incoming (some p) = true := by
    unfold isProvisionedFallback
    simp [hbase, hjson, hsec]
    rcases not_and_or.mp hbase with h | h
    · exact Or.inl (by simpa using h)
    · exact Or.inr (by simpa [List.isEmpty_iff] using h)
  have hs : shouldPersistUpdate incoming (some p) = false := by
    unfold shouldPersistUpdate
    by_cases h1 : hasNonEmptySettings incoming = true <;> simp [h1, hfb]
  have hrec : reconcileEffective incoming orgId (.found p) =
      (persistedToAppInstanceSettings (some p) incoming.APIVersion, none) := by
    unfold reconcileEffective persistedOfOutcome
    simp [horg, hs]
  refine ⟨hrec, ?_⟩
  have hstep : replayStep incoming orgId now (some p) = some p := by
    show (match (reconcileEffective incoming orgId (.found p)).2 with
      | none => some p
      | some c => some (recordAfterSave now c (some p))) = some p
    rw [hrec]
  intro n
  exact Function.iterate_fixed hstep n

/-- C2 witness: a concrete replay of the stored baseline is a no-op even
though the live record has since been edited. -/
theorem provisioned_replay_noop_witness :
    (replayStep
        { JSONData := "\x7b\"a\": 1\x7d", DecryptedSecureJSONData := [("s", "x")],
          Updated := 3, APIVersion := "" }
        4 99)^[5]
      (some { JSONData := "\x7b\"a\":2\x7d", SecureJSONData := [("s", "y")], UpdatedAt := 9,
              ProvisionedJSONData := "\x7b\"a\":1\x7d", ProvisionedSecureJSONData := [("s", "x")],
              ProvisionedUpdatedAt := 3 }) =
      some { JSONData := "\x7b\"a\":2\x7d", SecureJSONData := [("s", "y")], UpdatedAt := 9,
             ProvisionedJSONData := "\x7b\"a\":1\x7d", ProvisionedSecureJSONData := [("s", "x")],
             ProvisionedUpdatedAt := 3 } :=
  (provisioned_replay_noop
    { JSONData := "\x7b\"a\": 1\x7d", DecryptedSecureJSONData := [("s", "x")],
      Updated := 3, APIVersion := "" }
    { JSONData := "\x7b\"a\":2\x7d", SecureJSONData := [("s", "y")], UpdatedAt := 9,
      ProvisionedJSONData := "\x7b\"a\":1\x7d", ProvisionedSecureJSONData := [("s", "x")],
      ProvisionedUpdatedAt := 3 }
    4 99 (by decide) (by decide) (by decide) (by decide)).2 5

/-- Whether a Go (value, err) return carries a nil error. -/
def exceptIsOk {ε α : Type} : Except ε α → Bool
  | .ok _ => true
  | .error _ => false

/-- C4 counterexample: a malformed incoming JSON blob makes parseConfig
fail on the effective settings, and NewApp returns that error instead of a
constructed instance, contradicting the claim that reconciliation-internal
errors never abort instantiation. -/
theorem newApp_aborts_on_malformed_json :
    newAppModel
        { JSONData := "\x7bbad", DecryptedSecureJSONData := [], Updated := 0, APIVersion := "" }
        0 .absent
      = .error "parse config: decode jsonData" := by
  decide

/-- C4 amended: NewApp aborts exactly when parseConfig fails on the
effective settings; failures of loading or decoding the persisted record
degrade to reconciling against no record and never abort by themselves
(they surface only as a logged warning), and persist or storage failures
after reconciliation never abort either. -/
theorem newApp_abort_iff_parseConfig (settings : AppInstanceSettings) (orgId : Int)
    (out : LoadOutcome) :
    (exceptIsOk (newAppModel settings orgId out)
      = exceptIsOk (parseConfig (reconcileEffective settings orgId out).1))
    ∧ (∀ cfg : Config, parseConfig (mergeAppInstanceSettings settings none) = .ok cfg →
        newAppModel settings orgId .loadFailed = .ok cfg) := by
  constructor
  · unfold newAppModel
    cases parseConfig (reconcileEffective settings orgId out).1 <;> rfl
  · intro cfg hc
    have heff : (reconcileEffective settings orgId .loadFailed).1
        = mergeAppInstanceSettings settings none := by
      unfold reconcileEffective persistedOfOutcome
      by_cases ho : (orgId == 0) = true <;>
      by_cases hne : hasNonEmptySettings settings = true <;>
      simp [ho, hne]
    unfold newAppModel
    rw [heff, hc]

/-- C4 witness: after a load failure, a well-formed payload still yields a
constructed instance with its parsed configuration. -/
theorem newApp_abort_iff_parseConfig_witness :
    newAppModel
        { JSONData := "\x7b\"bucketName\":\"b\"\x7d", DecryptedSecureJSONData := [],
          Updated := 0, APIVersion := "" }
        3 .loadFailed
      = .ok { APIURL := "", APIKey := "",
              Storage := { Bucket := "b", PrefixStr := "", MaxUploadSizeMB := 25,
                           MaxUploadSizeBytes := 26214400, ServiceAccountJSON := "" } } :=
  (newApp_abort_iff_parseConfig
    { JSONData := "\x7b\"bucketName\":\"b\"\x7d", DecryptedSecureJSONData := [],
      Updated := 0, APIVersion := "" }
    3 .loadFailed).2
    { APIURL := "", APIKey := "",
      Storage := { Bucket := "b", PrefixStr := "", MaxUploadSizeMB := 25,
                   MaxUploadSizeBytes := 26214400, ServiceAccountJSON := "" } }
    (by decide)

/-- A non-empty map never encodes to the empty string (its encoding is a
brace-delimited object). -/
theorem encodeStringMap_ne_empty (m : StrMap) (h : ¬ m = []) : ¬ encodeStringMap m = "" := by
  unfold encodeStringMap
  have hie : m.isEmpty = false := by
    simp [List.isEmpty_iff, h]
  rw [hie]
  simp only [Bool.false_eq_true, if_false]
  intro hEq
  have hser : serializeJson (.obj (m.foldl (fun fs p => insertField fs p.1 (.str p.2)) .nil))
      = "\x7b" ++ serializeFields (m.foldl (fun fs p => insertField fs p.1 (.str p.2)) .nil)
        ++ "\x7d" := rfl
  rw [hser] at hEq
  have hlen := congrArg String.length hEq
  simp [String.length_append] at hlen
  exact absurd hlen.2 (by decide)

/-- Any key of a keyed write is the written key or a key of the original
map. -/
theorem mem_keys_setMap : ∀ (m : StrMap) (k v a : String),
    a ∈ (setMap m k v).map Prod.fst → a = k ∨ a ∈ m.map Prod.fst
  | [], k, v, a, h => by
    simp only [setMap, List.map_cons, List.map_nil, List.mem_singleton] at h
    exact Or.inl h
  | (k1, v1) :: rest, k, v, a, h => by
    by_cases hb : (k1 == k) = true
    · simp only [setMap, hb, if_true, List.map_cons, List.mem_cons] at h
      rcases h with he | hm
      · exact Or.inl he
      · exact Or.inr (List.mem_cons_of_mem k1 hm)
    · have hbf : (k1 == k) = false := by simpa using hb
      simp only [setMap, hbf, Bool.false_eq_true, if_false, List.map_cons, List.mem_cons] at h
      rcases h with he | hm
      · exact Or.inr (by simp [he])
      · rcases mem_keys_setMap rest k v a hm with he | hm2
        · exact Or.inl he
        · exact Or.inr (List.mem_cons_of_mem k1 hm2)

/-- A keyed write keeps the keys of a map pairwise distinct. -/
theorem NodupKeys_setMap : ∀ (m : StrMap) (k v : String),
    NodupKeys m → NodupKeys (setMap m k v)
  | [], k, v, _ => by simp [setMap, NodupKeys]
  | (k1, v1) :: rest, k, v, h => by
    have h0 : ¬ k1 ∈ rest.map Prod.fst ∧ NodupKeys rest := by
      have hh := h
      simp only [NodupKeys, List.map_cons, List.nodup_cons] at hh
      exact hh
    by_cases hb : (k1 == k) = true
    · have hk : k1 = k := by simpa using hb
      simp only [setMap, hb, if_true, NodupKeys, List.map_cons, List.nodup_cons]
      exact ⟨by rw [← hk]; exact h0.1, h0.2⟩
    · have hbf : (k1 == k) = false := by simpa using hb
      have hk : ¬ k1 = k := by simpa using hb
      simp only [setMap, hbf, Bool.false_eq_true, if_false, NodupKeys, List.map_cons,
        List.nodup_cons]
      constructor
      · intro hmem
        rcases mem_keys_setMap rest k v k1 hmem with he | hm
        · exact hk he
        · exact h0.1 hm
      · exact NodupKeys_setMap rest k v h0.2

/-- The retention step keeps the keys pairwise distinct. -/
theorem NodupKeys_insertPersistedSecret (m : StrMap) (k v : String) (h : NodupKeys m) :
    NodupKeys (insertPersistedSecret m k v) := by
  unfold insertPersistedSecret
  cases lookupMap m k with
  | none => exact NodupKeys_setMap m k v h
  | some val =>
    show NodupKeys (if (goTrim val).isEmpty = true then setMap m k v else m)
    by_cases hb : (goTrim val).isEmpty = true
    · rw [if_pos hb]
      exact NodupKeys_setMap m k v h
    · rw [if_neg hb]
      exact h

/-- The secret retention loop keeps the merged keys pairwise distinct. -/
theorem NodupKeys_mergeSecretFold : ∀ (ps m : StrMap),
    NodupKeys m → NodupKeys (mergeSecretFold m ps)
  | [], _, h => h
  | p :: rest, m, h =>
    NodupKeys_mergeSecretFold rest (insertPersistedSecret m p.1 p.2)
      (NodupKeys_insertPersistedSecret m p.1 p.2 h)

/-- Merged secret maps keep the Go map invariant of distinct keys. -/
theorem NodupKeys_merge_secure (incoming : AppInstanceSettings) (p : PersistedAppSettings)
    (hndi : NodupKeys incoming.DecryptedSecureJSONData) (hnd : NodupKeys p.SecureJSONData) :
    NodupKeys (mergeAppInstanceSettings incoming (some p)).DecryptedSecureJSONData := by
  rw [mergeAppInstanceSettings_secure]
  split
  · exact hndi
  · split
    · exact hnd
    · split
      · exact hnd
      · exact NodupKeys_mergeSecretFold p.SecureJSONData incoming.DecryptedSecureJSONData hndi

/-- C5 counterexample: savePersistedAppSettings writes the candidate's
secret map verbatim; with an existing row holding the non-empty secret
k = v and a candidate that omits every secret, the upserted row's
secure_json_data column is NULL, so it retains no key at all and in
particular not k with its previous value. -/
theorem save_drops_omitted_secret :
    lookupMap ([("k", "v")] : StrMap) "k" = some "v" ∧
    lookupMap ([] : StrMap) "k" = none ∧
    (savePersistedAppSettingsRow 1 9
        { JSONData := "\x7b\"x\":2\x7d", DecryptedSecureJSONData := [], Updated := 7, APIVersion := "" }
        (some { JSONData := "\x7b\"x\":1\x7d", SecureJSONData := [("k", "v")], UpdatedAt := 5,
                ProvisionedJSONData := "", ProvisionedSecureJSONData := [],
                ProvisionedUpdatedAt := 0 })).secureJSON = none := by
  refine ⟨by decide, by decide, by decide⟩

/-- C5 amended: the save itself writes the candidate's secret map verbatim
(it never consults existing.SecureJSONData for the live column), so the
no-loss guarantee holds for the row exactly when the candidate is the merge
of the incoming payload with the existing record, as every caller builds
it: then the written secure_json_data column is exactly the non-NULL
encoding of the merged secret map, that map carries pairwise-distinct keys,
and it still binds the omitted key to its previous non-empty value. -/
theorem save_of_merged_retains_secret (orgId : Int) (now : Nat)
    (incoming : AppInstanceSettings) (e : PersistedAppSettings) (k v : String)
    (hndi : NodupKeys incoming.DecryptedSecureJSONData)
    (hnd : NodupKeys e.SecureJSONData)
    (hk : lookupMap e.SecureJSONData k = some v) (hv : v ≠ "")
    (homit : lookupMap incoming.DecryptedSecureJSONData k = none ∨
      lookupMap incoming.DecryptedSecureJSONData k = some "") :
    (savePersistedAppSettingsRow orgId now (mergeAppInstanceSettings incoming (some e))
        (some e)).secureJSON
      = some (encodeStringMap (mergeAppInstanceSettings incoming (some e)).DecryptedSecureJSONData)
    ∧ NodupKeys (mergeAppInstanceSettings incoming (some e)).DecryptedSecureJSONData
    ∧ lookupMap (mergeAppInstanceSettings incoming (some e)).DecryptedSecureJSONData k
      = some v := by
  have hlook : lookupMap (mergeAppInstanceSettings incoming (some e)).DecryptedSecureJSONData k
      = some v := merge_retains_persisted_secret incoming e k v hnd hk homit
  have hMne : ¬ (mergeAppInstanceSettings incoming (some e)).DecryptedSecureJSONData = [] := by
    intro h0
    rw [h0] at hlook
    simp [lookupMap, List.find?] at hlook
  refine ⟨?_, NodupKeys_merge_secure incoming e hndi hnd, hlook⟩
  have henc := encodeStringMap_ne_empty _ hMne
  have hcol : (savePersistedAppSettingsRow orgId now (mergeAppInstanceSettings incoming (some e))
      (some e)).secureJSON
      = encodeStringMapOpt (mergeAppInstanceSettings incoming (some e)).DecryptedSecureJSONData := rfl
  rw [hcol]
  unfold encodeStringMapOpt
  simp [henc]

/-- C5 witness: the amended guarantee at a concrete merged candidate. -/
theorem save_of_merged_retains_secret_witness :
    (savePersistedAppSettingsRow 1 9
        (mergeAppInstanceSettings
          { JSONData := "\x7b\"x\":2\x7d", DecryptedSecureJSONData := [], Updated := 7, APIVersion := "" }
          (some { JSONData := "\x7b\"x\":1\x7d", SecureJSONData := [("k", "v")], UpdatedAt := 5,
                  ProvisionedJSONData := "", ProvisionedSecureJSONData := [],
                  ProvisionedUpdatedAt := 0 }))
        (some { JSONData := "\x7b\"x\":1\x7d", SecureJSONData := [("k", "v")], UpdatedAt := 5,
                ProvisionedJSONData := "", ProvisionedSecureJSONData := [],
                ProvisionedUpdatedAt := 0 })).secureJSON
      = some (encodeStringMap (mergeAppInstanceSettings
          { JSONData := "\x7b\"x\":2\x7d", DecryptedSecureJSONData := [], Updated := 7, APIVersion := "" }
          (some { JSONData := "\x7b\"x\":1\x7d", SecureJSONData := [("k", "v")], UpdatedAt := 5,
                  ProvisionedJSONData := "", ProvisionedSecureJSONData := [],
                  ProvisionedUpdatedAt := 0 })).DecryptedSecureJSONData)
    ∧ NodupKeys (mergeAppInstanceSettings
          { JSONData := "\x7b\"x\":2\x7d", DecryptedSecureJSONData := [], Updated := 7, APIVersion := "" }
          (some { JSONData := "\x7b\"x\":1\x7d", SecureJSONData := [("k", "v")], UpdatedAt := 5,
                  ProvisionedJSONData := "", ProvisionedSecureJSONData := [],
                  ProvisionedUpdatedAt := 0 })).DecryptedSecureJSONData
    ∧ lookupMap (mergeAppInstanceSettings
          { JSONData := "\x7b\"x\":2\x7d", DecryptedSecureJSONData := [], Updated := 7, APIVersion := "" }
          (some { JSONData := "\x7b\"x\":1\x7d", SecureJSONData := [("k", "v")], UpdatedAt := 5,
                  ProvisionedJSONData := "", ProvisionedSecureJSONData := [],
                  ProvisionedUpdatedAt := 0 })).DecryptedSecureJSONData "k" = some "v" :=
  save_of_merged_retains_secret 1 9
    { JSONData := "\x7b\"x\":2\x7d", DecryptedSecureJSONData := [], Updated := 7, APIVersion := "" }
    { JSONData := "\x7b\"x\":1\x7d", SecureJSONData := [("k", "v")], UpdatedAt := 5,
      ProvisionedJSONData := "", ProvisionedSecureJSONData := [], ProvisionedUpdatedAt := 0 }
    "k" "v" (by decide) (by decide) (by decide) (by decide) (Or.inl (by decide))

/-- C6: the provisioned baseline is write-once and preserved.  When the
existing row carries any provisioned data, the upserted row's provisioned
columns repeat the existing values unchanged; on the first persist for a
tenant the provisioned columns are initialized from the candidate itself
(its canonicalized blob, its secret map, and its resolved timestamp). -/
theorem provisioned_write_once (orgId : Int) (now : Nat) (settings : AppInstanceSettings)
    (e : PersistedAppSettings) (hnow : 0 < now) :
    ((¬ (e.ProvisionedJSONData.isEmpty = true ∧ e.ProvisionedSecureJSONData.isEmpty = true)) →
      (savePersistedAppSettingsRow orgId now settings (some e)).provisionedJSON
          = nullableStringFromBytes e.ProvisionedJSONData ∧
        (savePersistedAppSettingsRow orgId now settings (some e)).provisionedSecureJSON
          = encodeStringMapOpt e.ProvisionedSecureJSONData ∧
        (savePersistedAppSettingsRow orgId now settings (some e)).provisionedUpdatedAt
          = timeColumn e.ProvisionedUpdatedAt)
    ∧ ((savePersistedAppSettingsRow orgId now settings none).provisionedJSON
          = nullableStringFromBytes (canonicalizeJSON settings.JSONData) ∧
        (savePersistedAppSettingsRow orgId now settings none).provisionedSecureJSON
          = encodeStringMapOpt settings.DecryptedSecureJSONData ∧
        (savePersistedAppSettingsRow orgId now settings none).provisionedUpdatedAt
          = some (if settings.Updated == 0 then now else settings.Updated)) := by
  constructor
  · intro hbase
    unfold savePersistedAppSettingsRow saveValues
    simp only [copyStringMap]
    rw [if_neg hbase]
    exact ⟨rfl, rfl, rfl⟩
  · unfold savePersistedAppSettingsRow saveValues
    simp only [copyStringMap]
    have hupd : ((if settings.Updated == 0 then now else settings.Updated) == 0) = false := by
      by_cases h : (settings.Updated == 0) = true
      · simp only [h, if_true, beq_eq_false_iff_ne]
        omega
      · have hf : (settings.Updated == 0) = false := by simpa using h
        rw [hf]
        simp only [Bool.false_eq_true, if_false]
        exact hf
    refine ⟨rfl, rfl, ?_⟩
    show timeColumn (if settings.Updated == 0 then now else settings.Updated)
      = some (if settings.Updated == 0 then now else settings.Updated)
    unfold timeColumn
    rw [hupd]
    simp

/-- C6 witness: a concrete update against a row with a provisioned baseline
keeps the baseline columns, and a concrete first persist initializes them
from the candidate. -/
theorem provisioned_write_once_witness :
    (savePersistedAppSettingsRow 1 9
        { JSONData := "\x7b\"a\":2\x7d", DecryptedSecureJSONData := [], Updated := 7, APIVersion := "" }
        (some { JSONData := "\x7b\"a\":1\x7d", SecureJSONData := [], UpdatedAt := 5,
                ProvisionedJSONData := "\x7b\"a\":0\x7d", ProvisionedSecureJSONData := [("s", "x")],
                ProvisionedUpdatedAt := 2 })).provisionedJSON
      = nullableStringFromBytes "\x7b\"a\":0\x7d" :=
  ((provisioned_write_once 1 9
    { JSONData := "\x7b\"a\":2\x7d", DecryptedSecureJSONData := [], Updated := 7, APIVersion := "" }
    { JSONData := "\x7b\"a\":1\x7d", SecureJSONData := [], UpdatedAt := 5,
      ProvisionedJSONData := "\x7b\"a\":0\x7d", ProvisionedSecureJSONData := [("s", "x")],
      ProvisionedUpdatedAt := 2 }
    (by decide)).1 (by decide)).1

/-- C7: tenant resolution rejects rather than guesses.  If neither the
trusted plugin context nor the bearer token yields an org id, resolution
fails; if an orgId query parameter parses and differs from the resolved
trusted id, resolution fails with the forbidden mismatch error; and any
successful resolution returns exactly the trusted chain's id. -/
theorem tenant_resolution_rejects (r : RequestM) :
    (trustedSourceOrg r = none → exceptIsOk (resolveOrgIDFromRequest r) = false)
    ∧ (∀ q id1 : Int, parseInt64 (goTrim r.queryOrgId) = some q →
        trustedSourceOrg r = some id1 → q ≠ id1 →
        resolveOrgIDFromRequest r = .error (.httpErr 403 "forbidden: organization mismatch"))
    ∧ (∀ id1 : Int, resolveOrgIDFromRequest r = .ok id1 → trustedSourceOrg r = some id1) := by
  refine ⟨?_, ?_, ?_⟩
  · intro hts
    cases hpc : r.pluginCtx with
    | some pc =>
      unfold trustedSourceOrg at hts
      rw [hpc] at hts
      exact Option.noConfusion hts
    | none =>
      cases hget : getOrgFromRequest r with
      | ok o =>
        unfold trustedSourceOrg at hts
        rw [hpc, hget] at hts
        exact Option.noConfusion hts
      | error e =>
        unfold resolveOrgIDFromRequest
        by_cases hv : (goTrim r.queryOrgId == "") = true
        · simp [hv, hpc, hget, exceptIsOk]
        · cases hp : parseInt64 (goTrim r.queryOrgId) with
          | none => simp [hv, hp, exceptIsOk]
          | some q => simp [hv, hp, hpc, hget, exceptIsOk]
  · intro q id1 hq hts hne
    have hv : (goTrim r.queryOrgId == "") = false := by
      by_cases hvv : (goTrim r.queryOrgId == "") = true
      · have he : goTrim r.queryOrgId = "" := by simpa using hvv
        rw [he] at hq
        have : parseInt64 "" = none := by decide
        rw [this] at hq
        exact Option.noConfusion hq
      · simpa using hvv
    unfold resolveOrgIDFromRequest
    cases hpc : r.pluginCtx with
    | some pc =>
      have hid : pc.OrgID = id1 := by
        unfold trustedSourceOrg at hts
        rw [hpc] at hts
        exact Option.some.inj hts
      simp [hv, hq, hid, hne]
    | none =>
      cases hget : getOrgFromRequest r with
      | error e =>
        unfold trustedSourceOrg at hts
        rw [hpc, hget] at hts
        exact Option.noConfusion hts
      | ok o =>
        have hid : o = id1 := by
          unfold trustedSourceOrg at hts
          rw [hpc, hget] at hts
          exact Option.some.inj hts
        rw [hid] at hget
        simp [hv, hq, hpc, hget, hne]
        omega
  · intro id1 hok
    unfold resolveOrgIDFromRequest at hok
    unfold trustedSourceOrg
    by_cases hv : (goTrim r.queryOrgId == "") = true
    · simp only [hv, if_true] at hok
      cases hpc : r.pluginCtx with
      | some pc =>
        rw [hpc] at hok
        simp only [Except.ok.injEq] at hok
        simp [hok]
      | none =>
        rw [hpc] at hok
        cases hget : getOrgFromRequest r with
        | error e =>
          rw [hget] at hok
          exact Except.noConfusion hok
        | ok o =>
          rw [hget] at hok
          simp only [Except.ok.injEq] at hok
          simp [hget, hok]
    · cases hp : parseInt64 (goTrim r.queryOrgId) with
      | none =>
        simp only [hv, Bool.false_eq_true, if_false, hp] at hok
        exact Except.noConfusion hok
      | some q =>
        simp only [hv, Bool.false_eq_true, if_false, hp] at hok
        cases hpc : r.pluginCtx with
        | some pc =>
          rw [hpc] at hok
          by_cases hqe : q ≠ pc.OrgID
          · simp [hqe] at hok
          · push_neg at hqe
            simp [hqe] at hok
            simp [hok]
        | none =>
          rw [hpc] at hok
          cases hget : getOrgFromRequest r with
          | error e =>
            rw [hget] at hok
            exact Except.noConfusion hok
          | ok o =>
            rw [hget] at hok
            by_cases hqe : q ≠ o
            · simp [hqe] at hok
            · simp [hqe] at hok
              simp [hget, hok]

/-- C7 witness: a concrete query parameter disagreeing with the trusted
plugin context is rejected with the forbidden mismatch error. -/
theorem tenant_resolution_rejects_witness :
    resolveOrgIDFromRequest { queryOrgId := "8", pluginCtx := some { OrgID := 7 }, xGrafanaId := "" }
      = .error (.httpErr 403 "forbidden: organization mismatch") :=
  (tenant_resolution_rejects
    { queryOrgId := "8", pluginCtx := some { OrgID := 7 }, xGrafanaId := "" }).2.1 8 7
    (by decide) (by decide) (by decide)

/-- The secure-data phase never touches the upload-size fields. -/
theorem applySecureConfig_storage_size (m : StrMap) (cfg : Config) :
    (applySecureConfig m cfg).Storage.MaxUploadSizeMB = cfg.Storage.MaxUploadSizeMB ∧
    (applySecureConfig m cfg).Storage.MaxUploadSizeBytes = cfg.Storage.MaxUploadSizeBytes := by
  unfold applySecureConfig
  cases lookupMap m "apiKey" <;> cases lookupMap m "gcsServiceAccount" <;> simp

/-- C8: upload-size clamping.  Whenever the settings blob decodes (or is
absent, leaving the zero raw struct), parseConfig succeeds and resolves
MaxUploadSizeMB to min(m, 5120) for positive m and to the 25 MB default
otherwise, with MaxUploadSizeBytes always the MB value times 1,048,576. -/
theorem upload_size_clamping (settings : AppInstanceSettings) (raw : RawConfigFields)
    (hdec : ¬ settings.JSONData = "" → decodeRawConfig settings.JSONData = .ok raw)
    (hempty : settings.JSONData = "" → raw.maxUploadSizeMb = 0) :
    ∃ cfg : Config, parseConfig settings = .ok cfg ∧
      cfg.Storage.MaxUploadSizeMB =
        (if 0 < raw.maxUploadSizeMb then min raw.maxUploadSizeMb 5120 else 25) ∧
      cfg.Storage.MaxUploadSizeBytes = cfg.Storage.MaxUploadSizeMB * 1048576 := by
  have hclamp : 0 < raw.maxUploadSizeMb →
      (if raw.maxUploadSizeMb > maxAllowedUploadSizeMB then maxAllowedUploadSizeMB
        else raw.maxUploadSizeMb) = min raw.maxUploadSizeMb 5120 := by
    intro hm
    unfold maxAllowedUploadSizeMB
    by_cases h : raw.maxUploadSizeMb > 5120
    · rw [if_pos h]
      exact (min_eq_right (by omega)).symm
    · rw [if_neg h]
      exact (min_eq_left (by omega)).symm
  unfold parseConfig
  by_cases hJ : settings.JSONData.isEmpty = true
  · have hm0 : raw.maxUploadSizeMb = 0 := hempty ((String.isEmpty_iff _).mp hJ)
    simp only [hJ, if_true]
    refine ⟨_, rfl, ?_, ?_⟩
    · rw [(applySecureConfig_storage_size _ _).1]
      simp [hm0, defaultMaxUploadSizeMB]
    · rw [(applySecureConfig_storage_size _ _).2, (applySecureConfig_storage_size _ _).1]
      norm_num [defaultMaxUploadSizeMB, bytesInMegabyte]
  · have hJ2 : ¬ settings.JSONData = "" := by
      intro h
      exact hJ (by rw [h]; decide)
    have hdec2 := hdec hJ2
    simp only [hJ, Bool.false_eq_true, if_false, hdec2]
    by_cases hpos : raw.maxUploadSizeMb > 0
    · rw [if_pos hpos]
      refine ⟨_, rfl, ?_, ?_⟩
      · rw [(applySecureConfig_storage_size _ _).1]
        simp only [if_pos hpos]
        exact hclamp hpos
      · rw [(applySecureConfig_storage_size _ _).2, (applySecureConfig_storage_size _ _).1]
        simp only [bytesInMegabyte]
        norm_num
    · rw [if_neg hpos]
      have hnpos : ¬ (0 < raw.maxUploadSizeMb) := hpos
      refine ⟨_, rfl, ?_, ?_⟩
      · rw [(applySecureConfig_storage_size _ _).1]
        simp [hnpos, defaultMaxUploadSizeMB]
      · rw [(applySecureConfig_storage_size _ _).2, (applySecureConfig_storage_size _ _).1]
        norm_num [defaultMaxUploadSizeMB, bytesInMegabyte]

/-- C8 witness: 999,999 MB resolves to the 5120 MB cap, 5,368,709,120
bytes, on a concrete payload. -/
theorem upload_size_clamping_witness :
    ∃ cfg : Config,
      parseConfig { JSONData := "\x7b\"maxUploadSizeMb\":999999\x7d", DecryptedSecureJSONData := [],
                    Updated := 0, APIVersion := "" } = .ok cfg ∧
      cfg.Storage.MaxUploadSizeMB = (if 0 < (999999 : Int) then min (999999 : Int) 5120 else 25) ∧
      cfg.Storage.MaxUploadSizeBytes = cfg.Storage.MaxUploadSizeMB * 1048576 :=
  upload_size_clamping
    { JSONData := "\x7b\"maxUploadSizeMb\":999999\x7d", DecryptedSecureJSONData := [],
      Updated := 0, APIVersion := "" }
    { apiUrl := "", bucketName := "", objectPrefixStr := "", maxUploadSizeMb := 999999 }
    (fun _ => by decide) (fun h => absurd h (by decide))
